import Mathlib

/-
Verification development for the mcp-lite orchestration core.

Shallow embedding of the Connection Hub (src/unnamed/part_004, class McpHub),
the Conversation Orchestrator (src/unnamed/part_005, class ChatEngine) and the
Batch Runner sequential path (src/src/cli/index.ts, class BatchProcessor).

Modelling conventions:
* The JS `Map<string, McpConnection>` is modelled as an insertion-ordered
  association list (a `List McpConnection`, each carrying its key `name`);
  `Map.set` replaces in place when the key is present and appends otherwise,
  `Map.delete` removes the keyed entry, and iteration follows list order,
  matching JS Map iteration order.
* Asynchronous effects are environment parameters: the outcome of
  `createConnection` is an `Except` value supplied by the caller of the model,
  the MCP client transport is a function from (serverName, toolName, args) to
  an `Except`, and the LLM capability is a function from (messages, tools) to
  an `Except`.  A thrown JS `Error` is modelled as the `Except.error` case
  carrying the message string.
* Mutation of `this.messages` / `this.connections` is modelled by explicit
  state passing; a method that can throw returns the state it leaves behind
  together with an `Except`.
-/

set_option autoImplicit false

namespace McpLite

/-- Tool Descriptor (src/src/types/index.ts `McpTool`): name and description;
the input schema is irrelevant to the claims and omitted. -/
structure McpTool where
  name : String
  description : String
  deriving DecidableEq

/-- Resource Descriptor (src/src/types/index.ts `McpResource`). -/
structure McpResource where
  uri : String
  name : String
  deriving DecidableEq

/-- One entry of `McpHub.connections` (interface `McpConnection` in
src/unnamed/part_004): the key under which it is registered (`config.name`),
the connectivity flag, and the discovered catalogs.  The client/transport
handles carry no catalog state and are left to the transport environment. -/
structure McpConnection where
  name : String
  connected : Bool
  tools : List McpTool
  resources : List McpResource
  deriving DecidableEq

/-- State of class `McpHub` (src/unnamed/part_004 lines 26-32): the
insertion-ordered session map and the constructor's `timeoutMs`. -/
structure McpHub where
  connections : List McpConnection
  timeoutMs : Nat
  deriving DecidableEq

namespace McpHub

/-- JS `Map.get(name)` on the connections map. -/
def lookupConn (h : McpHub) (name : String) : Option McpConnection :=
  h.connections.find? (fun c => c.name == name)

/-- JS `Map.has(name)` on the connections map. -/
def hasConn (h : McpHub) (name : String) : Bool :=
  h.connections.any (fun c => c.name == name)

/-- JS `Map.delete(name)`: remove the entry registered under `name`,
preserving the order of the others. -/
def mapDelete (l : List McpConnection) (name : String) : List McpConnection :=
  l.filter (fun c => c.name != name)

/-- JS `Map.set(key, value)`: replace in place when the key is present,
append at the end otherwise. -/
def mapSet (l : List McpConnection) (c : McpConnection) : List McpConnection :=
  match l with
  | [] => [c]
  | x :: xs => if x.name == c.name then c :: xs else x :: mapSet xs c

/-- `McpHub.removeServer` (part_004 lines 47-54): no-op when absent, else the
connection is disconnected (`disconnectConnection` sets `connected := false`
on the shared object) and deleted from the map.  The deleted object is
unreachable afterwards, so only the deletion is state-relevant. -/
def removeServer (h : McpHub) (name : String) : McpHub :=
  match lookupConn h name with
  | none => h
  | some _ => { h with connections := mapDelete h.connections name }

/-- `McpHub.addServer` (part_004 lines 34-45).  `outcome` is the result of
`createConnection(config)` (lines 145-209): `Except.error` models a thrown
`ConnectionError`/configuration error, `Except.ok (ts, rs)` a successful
connect returning the discovered catalogs (the returned object always has
`connected: true`, line 205).  The code first removes any session already
registered under the name, then attempts the connection, then registers the
new session on success; a throw propagates after the removal. -/
def addServer (h : McpHub) (name : String)
    (outcome : Except String (List McpTool × List McpResource)) :
    McpHub × Except String Unit :=
  let h1 := if hasConn h name then removeServer h name else h
  match outcome with
  | .error e => (h1, .error e)
  | .ok (ts, rs) =>
      let conn : McpConnection :=
        { name := name, connected := true, tools := ts, resources := rs }
      ({ h1 with connections := mapSet h1.connections conn }, .ok ())

/-- `McpHub.getServerNames` (part_004 lines 56-58). -/
def getServerNames (h : McpHub) : List String :=
  h.connections.map (fun c => c.name)

/-- `McpHub.getAvailableTools` (part_004 lines 60-68): loop over the map in
iteration order, pushing the tools of each connection whose `connected` flag
is true. -/
def getAvailableTools (h : McpHub) : List McpTool :=
  h.connections.foldl (fun acc c => if c.connected then acc ++ c.tools else acc) []

/-- `McpHub.getAvailableResources` (part_004 lines 70-78). -/
def getAvailableResources (h : McpHub) : List McpResource :=
  h.connections.foldl (fun acc c => if c.connected then acc ++ c.resources else acc) []

end McpHub

/-- One recorded call to a state-changing hub operation, with the
environment-decided connection outcome for `addServer`. -/
inductive HubOp where
  | add (name : String) (outcome : Except String (List McpTool × List McpResource))
  | remove (name : String)

/-- Apply one operation to the hub state (the `Except` result of `addServer`
is irrelevant to the resulting state). -/
def applyOp (h : McpHub) (op : HubOp) : McpHub :=
  match op with
  | .add n o => (McpHub.addServer h n o).1
  | .remove n => McpHub.removeServer h n

/-- Run a sequence of hub operations from a freshly constructed hub
(`new McpHub(timeoutMs)`, whose map is empty). -/
def runOps (timeoutMs : Nat) (ops : List HubOp) : McpHub :=
  ops.foldl applyOp { connections := [], timeoutMs := timeoutMs }

/-- One content item of a tool call result (element type of
`McpToolResponse.content` in src/src/types/index.ts); only the type tag and
the optional text matter to the orchestration core. -/
structure ContentItem where
  type : String
  text : Option String
  deriving DecidableEq

/-- Normalised `McpToolResponse` (src/src/types/index.ts): ordered content
items plus the server-set error flag. -/
structure McpToolResponse where
  content : List ContentItem
  isError : Bool
  deriving DecidableEq

/-- Raw result of `connection.client.request` for a `tools/call`, before the
hub normalises it with `(result).content || []` and
`(result).isError || false` (part_004 lines 103-106). -/
structure RawCallResult where
  content : Option (List ContentItem)
  isError : Option Bool
  deriving DecidableEq

/-- Transport environment: the outcome of `connection.client.request` for a
`tools/call` issued to (serverName, toolName, serialized arguments);
`Except.error` models a transport-level throw carrying its message. -/
def Transport := String → String → String → Except String RawCallResult

/-- Errors thrown by `McpHub.callTool` (part_004 lines 80-110), by message
shape: `notConnected s` is `Server s not connected` (spec name
NotConnectedError), `toolNotFound t s` is `Tool t not found on server s`
(ToolNotFoundError), and `toolExecution t cause` is
`Failed to call tool t: cause` (ToolExecutionError, wrapping the underlying
transport failure message). -/
inductive McpError where
  | notConnected (server : String)
  | toolNotFound (tool server : String)
  | toolExecution (tool cause : String)
  deriving DecidableEq

namespace McpHub

/-- `McpHub.callTool` (part_004 lines 80-110): look the session up, require
its connectivity flag, require the tool to be present in the session catalog,
forward to the transport, wrap any transport throw, and normalise the result
fields. -/
def callTool (h : McpHub) (tr : Transport) (serverName toolName args : String) :
    Except McpError McpToolResponse :=
  match lookupConn h serverName with
  | none => .error (.notConnected serverName)
  | some c =>
    if c.connected then
      match c.tools.find? (fun t => t.name == toolName) with
      | none => .error (.toolNotFound toolName serverName)
      | some _ =>
        match tr serverName toolName args with
        | .error cause => .error (.toolExecution toolName cause)
        | .ok r => .ok { content := r.content.getD [], isError := r.isError.getD false }
    else .error (.notConnected serverName)

/-- Timeout option attached by `McpHub.callTool` to the forwarded
`client.request` (part_004 lines 92-101): the code passes exactly two
arguments (the request object and the result schema) and no options object,
so no timeout option is attached, whatever `timeoutMs` the hub stores. -/
def toolCallRequestTimeout (_h : McpHub) (_serverName _toolName : String) : Option Nat :=
  none

/-- Timeout option attached by `McpHub.readResource` to the forwarded
`client.request` (part_004 lines 119-127): again a two-argument call, so no
timeout option is attached. -/
def resourceReadRequestTimeout (_h : McpHub) (_serverName _uri : String) : Option Nat :=
  none

end McpHub

/-- A requested Tool Call (interface `ToolCall` in src/src/types/index.ts):
call identifier, function name, serialized JSON argument payload. -/
structure ToolCall where
  id : String
  name : String
  arguments : String
  deriving DecidableEq

/-- A Tool Result (interface `ToolResult` in src/src/types/index.ts),
correlated to a call identifier. -/
structure ToolResult where
  toolCallId : String
  content : String
  isError : Bool
  deriving DecidableEq

/-- A transcript turn (interface `Message` in src/src/types/index.ts). -/
structure Message where
  role : String
  content : String
  toolCalls : Option (List ToolCall) := none
  toolResults : Option (List ToolResult) := none
  deriving DecidableEq

/-- Shape of one LLM capability response (`this.llm.chat` result in
src/unnamed/part_005): text content and optionally requested tool calls. -/
structure LLMResponse where
  content : String
  toolCalls : Option (List ToolCall)
  deriving DecidableEq

/-- LLM capability environment: `this.llm.chat(messages, availableTools,
opts)`; `Except.error` models the returned promise rejecting with the given
message. -/
def LLM := List Message → List McpTool → Except String LLMResponse

/-- JSON.parse environment for tool call argument strings
(`JSON.parse(toolCall.function.arguments)` in part_005): on success the
parsed value is abstracted as the canonical serialized form handed to the
hub; on failure the thrown message. -/
def JsonParse := String → Except String String

namespace ChatEngine

/-- One element of the response formatting map in `executeToolCall`
(part_005 lines 224-231): a text item with JS-truthy (present, non-empty)
text yields its text, anything else yields the bracketed type tag. -/
def formatItem (it : ContentItem) : String :=
  if it.type == "text" && it.text.getD "" != "" then it.text.getD ""
  else "[" ++ it.type ++ "]"

/-- Response formatting of `executeToolCall`: items joined by newline, with
`Tool executed successfully` substituted when the joined string is empty
(the JS falsy-string fallback on the join). -/
def formatContent (items : List ContentItem) : String :=
  let s := String.intercalate "\n" (items.map formatItem)
  if s == "" then "Tool executed successfully" else s

/-- The `for (const name of serverNames)` probe loop of
`ChatEngine.executeToolCall` (part_005 lines 212-237): attempt
`mcpHub.callTool` against each server name in order; the first success
returns the formatted content, any throw advances to the next name, and
exhausting the list throws `No server could execute tool ...` (line 239). -/
def probeServers (hub : McpHub) (tr : Transport) (toolName args : String) :
    List String → Except String String
  | [] => .error ("No server could execute tool " ++ toolName)
  | n :: rest =>
    match McpHub.callTool hub tr n toolName args with
    | .ok resp => .ok (formatContent resp.content)
    | .error _ => probeServers hub tr toolName args rest

/-- `ChatEngine.executeToolCall` (part_005 lines 199-240): throw
`Tool ... not found` when the name is in no connected catalog, otherwise
probe the registered server names in registration order. -/
def executeToolCall (hub : McpHub) (tr : Transport) (toolName args : String) :
    Except String String :=
  match (McpHub.getAvailableTools hub).find? (fun t => t.name == toolName) with
  | none => .error ("Tool " ++ toolName ++ " not found")
  | some _ => probeServers hub tr toolName args (McpHub.getServerNames hub)

/-- Body of the `executeToolCalls` loop for a single tool call (part_005
lines 141-193): parse the arguments and execute, catching any throw into a
Tool Result with the error flag set and an `Error: ...` content. -/
def execOne (hub : McpHub) (tr : Transport) (parse : JsonParse) (tc : ToolCall) : ToolResult :=
  match parse tc.arguments with
  | .error e => { toolCallId := tc.id, content := "Error: " ++ e, isError := true }
  | .ok args =>
    match executeToolCall hub tr tc.name args with
    | .ok out => { toolCallId := tc.id, content := out, isError := false }
    | .error e => { toolCallId := tc.id, content := "Error: " ++ e, isError := true }

/-- `ChatEngine.executeToolCalls` (part_005 lines 138-197): sequential loop
over the requested calls, pushing one result per call in emission order. -/
def executeToolCalls (hub : McpHub) (tr : Transport) (parse : JsonParse) :
    List ToolCall → List ToolResult
  | [] => []
  | tc :: rest => execOne hub tr parse tc :: executeToolCalls hub tr parse rest

/-- Result of one `ChatEngine.chat` invocation: the transcript state left in
`this.messages`, and either the returned final response (with the number of
LLM invocations made) or the propagated LLM rejection. -/
inductive ChatOutcome where
  | ok (messages : List Message) (finalResponse : String) (llmCalls : Nat)
  | err (messages : List Message) (errMsg : String) (llmCalls : Nat)
  deriving DecidableEq

/-- Number of LLM invocations an outcome records. -/
def ChatOutcome.llmCalls : ChatOutcome → Nat
  | .ok _ _ c => c
  | .err _ _ c => c

/-- The transcript state an outcome leaves in `this.messages`. -/
def ChatOutcome.messages : ChatOutcome → List Message
  | .ok m _ _ => m
  | .err m _ _ => m

/-- The user Turn appended at the start of `chat` (part_005 lines 54-57). -/
def userMessage (s : String) : Message :=
  { role := "user", content := s }

/-- The system Turn appended by `addMessage(content, system)` (part_005
lines 38-43). -/
def systemMessage (s : String) : Message :=
  { role := "system", content := s }

/-- The assistant Turn built from an LLM response (part_005 lines 75-79),
before any tool results are attached. -/
def assistantMessage (resp : LLMResponse) : Message :=
  { role := "assistant", content := resp.content, toolCalls := resp.toolCalls }

/-- The `while (turnCount < maxTurns)` loop of `ChatEngine.chat` (part_005
lines 59-129), with `fuel = maxTurns - turnCount` remaining iterations:
invoke the LLM on the current transcript and hub catalog; a rejection
propagates (leaving the pushed turns in place); an empty/absent tool call
list appends the assistant Turn and breaks; otherwise with auto-execution
the tool results are attached to the assistant Turn, the Turn is appended
and the loop continues, and without auto-execution the assistant Turn is
appended with its calls pending and the loop breaks. -/
def chatLoop (hub : McpHub) (tr : Transport) (parse : JsonParse) (llm : LLM)
    (autoExec : Bool) :
    Nat → List Message → String → Nat → ChatOutcome
  | 0, msgs, finalResp, calls => .ok msgs finalResp calls
  | fuel + 1, msgs, _finalResp, calls =>
    match llm msgs (McpHub.getAvailableTools hub) with
    | .error e => .err msgs e (calls + 1)
    | .ok resp =>
      let aMsg := assistantMessage resp
      if resp.toolCalls.getD [] = [] then
        .ok (msgs ++ [aMsg]) resp.content (calls + 1)
      else if autoExec then
        let trs := executeToolCalls hub tr parse (resp.toolCalls.getD [])
        chatLoop hub tr parse llm autoExec fuel
          (msgs ++ [{ aMsg with toolResults := some trs }]) resp.content (calls + 1)
      else
        .ok (msgs ++ [aMsg]) resp.content (calls + 1)

/-- The option fields of `ChatOptions` relevant to the claims; `none` models
an option not supplied by the caller, defaulted by the destructuring at
part_005 lines 46-51 (`maxTurns = 10`, `autoExecuteTools = true`). -/
structure ChatOptions where
  maxTurns : Option Nat := none
  autoExecuteTools : Option Bool := none

/-- `ChatEngine.chat(userInput, options)` (part_005 lines 45-136) from the
engine transcript state `msgs0`: push the user Turn, run the turn loop with
`finalResponse = ""` and `turnCount = 0`.  Ceiling exhaustion is not an
error: the loop simply stops after `maxTurns` iterations and the accumulated
final response is returned (the `turnCount >= maxTurns` branch only logs). -/
def chat (hub : McpHub) (tr : Transport) (parse : JsonParse) (llm : LLM)
    (opts : ChatOptions) (msgs0 : List Message) (input : String) : ChatOutcome :=
  chatLoop hub tr parse llm (opts.autoExecuteTools.getD true) (opts.maxTurns.getD 10)
    (msgs0 ++ [userMessage input]) "" 0

/-- The scan condition of `executeToolManually` (part_005 lines 253-255): an
assistant message whose (present) toolCalls list contains the identifier.
An absent `toolCalls` fails the JS truthiness test; a present empty list
passes it but contains no match. -/
def msgMatches (m : Message) (callId : String) : Bool :=
  m.role == "assistant" &&
    (match m.toolCalls with
     | some tcs => tcs.any (fun c => c.id == callId)
     | none => false)

/-- Appending the manual Tool Result to the located message (part_005 lines
257-264), initialising `toolResults` when absent. -/
def attachResult (m : Message) (tr : ToolResult) : Message :=
  { m with toolResults := some (m.toolResults.getD [] ++ [tr]) }

/-- The backwards index scan of `executeToolManually` (part_005 lines
252-268): later messages are preferred, so the suffix is searched first;
`none` when no message matches. -/
def resolveAux (callId : String) (tr : ToolResult) : List Message → Option (List Message)
  | [] => none
  | m :: rest =>
    match resolveAux callId tr rest with
    | some rest' => some (m :: rest')
    | none => if msgMatches m callId then some (attachResult m tr :: rest) else none

/-- `ChatEngine.executeToolManually(toolCallId, result, isError)` (part_005
lines 250-270): returns the transcript it leaves behind together with the
normal/thrown outcome; the throw (`Tool call ... not found`) happens before
any mutation, so the transcript is returned unchanged in that case. -/
def executeToolManually (msgs : List Message) (callId result : String) (isError : Bool) :
    List Message × Except String Unit :=
  match resolveAux callId { toolCallId := callId, content := result, isError := isError } msgs with
  | some msgs' => (msgs', .ok ())
  | none => (msgs, .error ("Tool call " ++ callId ++ " not found"))

end ChatEngine

/-- A Batch Record (interface `BatchQuestion` in src/src/cli/index.ts):
identifier, question text, optional seed context. -/
structure BatchQuestion where
  id : Option String := none
  question : String
  context : Option String := none
  deriving DecidableEq

/-- The fields of a Batch Result (interface `BatchResult` in
src/src/cli/index.ts) the claims are about. -/
structure BatchResult where
  id : String
  question : String
  response : String
  success : Bool
  error : Option String
  deriving DecidableEq

namespace BatchProcessor

/-- JS `question.id || default`: an absent or empty (falsy) id is replaced
by the positional `Q<n>` identifier (src/src/cli/index.ts line 645). -/
def idOr (id : Option String) (d : String) : String :=
  match id with
  | some s => if s == "" then d else s
  | none => d

/-- Per-record chat capability: `this.chatEngine.chat(question, opts)` as a
function of the current engine transcript and the question text (in the
integration this is `ChatEngine.chat` with its environment applied). -/
def ChatFun := List Message → String → ChatEngine.ChatOutcome

/-- Context injection of `processQuestion` (src/src/cli/index.ts lines
648-651): a record-supplied context is appended to the engine transcript as
a system Turn before the question is asked. -/
def injectCtx (st : List Message) (q : BatchQuestion) : List Message :=
  match q.context with
  | some c => st ++ [ChatEngine.systemMessage c]
  | none => st

/-- `BatchProcessor.processQuestion` (src/src/cli/index.ts lines 641-729)
against engine transcript `st`: inject the context, run the chat, and fold a
chat rejection into a failed Batch Result (the catch at lines 714-728).
Returns (result, engine transcript afterwards, transcript handed to chat). -/
def processQuestion (chatF : ChatFun) (st : List Message) (q : BatchQuestion) (num : Nat) :
    BatchResult × List Message × List Message :=
  let st1 := injectCtx st q
  let qid := idOr q.id ("Q" ++ toString num)
  match chatF st1 q.question with
  | .ok msgs r _ =>
    ({ id := qid, question := q.question, response := r, success := true, error := none },
     msgs, st1)
  | .err msgs e _ =>
    ({ id := qid, question := q.question, response := "", success := false, error := some e },
     msgs, st1)

/-- The `maxConcurrency === 1` sequential loop of
`BatchProcessor.processFromFile` (src/src/cli/index.ts lines 565-604):
process each record in order, push its result, stop right after a failed
record when `continueOnError` is false, and otherwise clear the engine
transcript (`clearMessages`, line 603) before the next record.  The second
component collects, per processed record, the transcript that was handed to
the chat engine. -/
def runSeq (chatF : ChatFun) (continueOnError : Bool) :
    List BatchQuestion → Nat → List Message → List BatchResult × List (List Message)
  | [], _, _ => ([], [])
  | q :: rest, i, st =>
    let pr := processQuestion chatF st q i
    if !pr.1.success && !continueOnError then ([pr.1], [pr.2.2])
    else
      let next := runSeq chatF continueOnError rest (i + 1) []
      (pr.1 :: next.1, pr.2.2 :: next.2)

/-- The sequential batch entry point: records are numbered from 1
(`questionNumber = i + 1` at line 572). -/
def processFromFile (chatF : ChatFun) (continueOnError : Bool)
    (qs : List BatchQuestion) (st : List Message) :
    List BatchResult × List (List Message) :=
  runSeq chatF continueOnError qs 1 st

/-- Modelled from the spec: the per-record results the Batch Runner section
of the spec promises — each record processed independently from a cleared
transcript (the first from the transcript present at batch start), in input
order. -/
def resultsSpec (chatF : ChatFun) : List Message → List BatchQuestion → Nat → List BatchResult
  | _, [], _ => []
  | st, q :: rest, i => (processQuestion chatF st q i).1 :: resultsSpec chatF [] rest (i + 1)

/-- Modelled from the spec: the transcript each record should see — the
batch-start transcript for the first record, a cleared transcript for every
later one, each with the record context injected as a system Turn. -/
def seedsSpec : List Message → List BatchQuestion → List (List Message)
  | _, [] => []
  | st, q :: rest => injectCtx st q :: seedsSpec [] rest

/-- Modelled from the spec: with `continueOnError = false`, exactly the
records up to and including the first failing one appear. -/
def takeThroughFailure : List BatchResult → List BatchResult
  | [] => []
  | r :: rest => if r.success then r :: takeThroughFailure rest else [r]

end BatchProcessor

/-- Modelled from the spec: a transcript with no dangling automatic tool
calls — every assistant Turn that requests tool calls carries a result list
correlated, identifier by identifier and in order, to its requested calls. -/
def ChatEngine.pendingFree (msgs : List Message) : Prop :=
  ∀ m ∈ msgs, m.role = "assistant" → m.toolCalls.getD [] ≠ [] →
    ∃ trs, m.toolResults = some trs
      ∧ trs.map (fun r => r.toolCallId) = (m.toolCalls.getD []).map (fun c => c.id)

/-- Concrete hub used by the C7 counterexample and the C6 failing input: one
connected session `a` exposing one tool, on a hub constructed with the
default `timeoutMs = 30000`. -/
def hubA : McpHub :=
  { connections :=
      [{ name := "a", connected := true,
         tools := [{ name := "t1", description := "d" }], resources := [] }],
    timeoutMs := 30000 }

/-- Concrete hub with two connected sessions `a` and `b`, both exposing a
tool `t1`, used by the routing witnesses. -/
def hub2 : McpHub :=
  { connections :=
      [{ name := "a", connected := true,
         tools := [{ name := "t1", description := "d" }], resources := [] },
       { name := "b", connected := true,
         tools := [{ name := "t1", description := "d" }], resources := [] }],
    timeoutMs := 30000 }

/-- Transport used by the C5 witness: every forwarded call succeeds with one
text content item and no server-set error flag. -/
def trOkHi : Transport := fun _ _ _ =>
  (Except.ok { content := some [{ type := "text", text := some "hi" }], isError := none } :
    Except String RawCallResult)

/-- Transport that throws for server `a` and succeeds for any other server,
used by the C3 witness to exercise the first-success probe. -/
def trMix : Transport := fun serverName _ _ =>
  if serverName == "a" then (Except.error "boom" : Except String RawCallResult)
  else
    (Except.ok { content := some [{ type := "text", text := some "hi" }], isError := none } :
      Except String RawCallResult)

/-- Transport that throws for every server, used by the C3 witness for the
fails-everywhere path. -/
def trFail : Transport := fun _ _ _ =>
  (Except.error "boom" : Except String RawCallResult)

/-- LLM environment that requests the same tool call on every invocation,
used by the C4 witness. -/
def llmAlwaysTool : LLM := fun _ _ =>
  (Except.ok
      { content := "working",
        toolCalls := some [{ id := "c1", name := "t1", arguments := "x" }] } :
    Except String LLMResponse)

/-- LLM environment that rejects immediately, used by the C10 witness. -/
def llmErr : LLM := fun _ _ =>
  (Except.error "boom" : Except String LLMResponse)

/-- Argument-parsing environment that accepts every payload unchanged,
used by the chat witnesses. -/
def parseId : JsonParse := fun s => .ok s

/-- Concrete assistant Turn with one pending tool call, used by the C9
witness. -/
def asst9 : Message :=
  { role := "assistant", content := "a",
    toolCalls := some [{ id := "c1", name := "t1", arguments := "x" }] }

namespace McpHub

theorem foldl_push_tools (l : List McpConnection) (acc : List McpTool) :
    l.foldl (fun acc c => if c.connected then acc ++ c.tools else acc) acc
      = acc ++ (l.filter (fun c => c.connected)).flatMap (fun c => c.tools) := by
  induction l generalizing acc with
  | nil => simp
  | cons x xs ih =>
    by_cases hx : x.connected
    · simp [List.foldl_cons, hx, ih, List.append_assoc]
    · simp [List.foldl_cons, hx, ih]

theorem foldl_push_resources (l : List McpConnection) (acc : List McpResource) :
    l.foldl (fun acc c => if c.connected then acc ++ c.resources else acc) acc
      = acc ++ (l.filter (fun c => c.connected)).flatMap (fun c => c.resources) := by
  induction l generalizing acc with
  | nil => simp
  | cons x xs ih =>
    by_cases hx : x.connected
    · simp [List.foldl_cons, hx, ih, List.append_assoc]
    · simp [List.foldl_cons, hx, ih]

theorem getAvailableTools_eq (h : McpHub) :
    getAvailableTools h
      = (h.connections.filter (fun c => c.connected)).flatMap (fun c => c.tools) := by
  simp [getAvailableTools, foldl_push_tools]

theorem getAvailableResources_eq (h : McpHub) :
    getAvailableResources h
      = (h.connections.filter (fun c => c.connected)).flatMap (fun c => c.resources) := by
  simp [getAvailableResources, foldl_push_resources]

theorem mem_getAvailableTools (h : McpHub) (t : McpTool) :
    t ∈ getAvailableTools h ↔
      ∃ c ∈ h.connections, c.connected = true ∧ t ∈ c.tools := by
  rw [getAvailableTools_eq]
  simp only [List.mem_flatMap, List.mem_filter]
  constructor
  · rintro ⟨c, ⟨hc, hconn⟩, ht⟩
    exact ⟨c, hc, hconn, ht⟩
  · rintro ⟨c, hc, hconn, ht⟩
    exact ⟨c, ⟨hc, hconn⟩, ht⟩

theorem mem_getAvailableResources (h : McpHub) (r : McpResource) :
    r ∈ getAvailableResources h ↔
      ∃ c ∈ h.connections, c.connected = true ∧ r ∈ c.resources := by
  rw [getAvailableResources_eq]
  simp only [List.mem_flatMap, List.mem_filter]
  constructor
  · rintro ⟨c, ⟨hc, hconn⟩, ht⟩
    exact ⟨c, hc, hconn, ht⟩
  · rintro ⟨c, hc, hconn, ht⟩
    exact ⟨c, ⟨hc, hconn⟩, ht⟩

theorem count_flatMap_eq_sum {α β : Type} [DecidableEq β] (l : List α) (f : α → List β) (b : β) :
    (l.flatMap f).count b = (l.map (fun a => (f a).count b)).sum := by
  induction l with
  | nil => simp
  | cons x xs ih => simp [List.count_append, ih]

theorem mem_mapDelete (l : List McpConnection) (n : String) (c : McpConnection) :
    c ∈ mapDelete l n ↔ c ∈ l ∧ c.name ≠ n := by
  simp [mapDelete, List.mem_filter, bne_iff_ne]

theorem mem_mapSet (l : List McpConnection) (c x : McpConnection)
    (hx : x ∈ mapSet l c) : x = c ∨ x ∈ l := by
  induction l with
  | nil =>
    simp only [mapSet, List.mem_singleton] at hx
    exact Or.inl hx
  | cons y ys ih =>
    simp only [mapSet] at hx
    by_cases hcond : (y.name == c.name) = true
    · rw [if_pos hcond] at hx
      rcases List.mem_cons.mp hx with h1 | h1
      · exact Or.inl h1
      · exact Or.inr (List.mem_cons_of_mem y h1)
    · rw [if_neg hcond] at hx
      rcases List.mem_cons.mp hx with h1 | h1
      · exact Or.inr (h1 ▸ List.mem_cons_self y ys)
      · rcases ih h1 with h2 | h2
        · exact Or.inl h2
        · exact Or.inr (List.mem_cons_of_mem y h2)

theorem find?_mapDelete (l : List McpConnection) (n : String) :
    (mapDelete l n).find? (fun c => c.name == n) = none := by
  rw [List.find?_eq_none]
  intro c hc
  have := (mem_mapDelete l n c).mp hc
  simpa using this.2

theorem mapDelete_of_hasConn_false (h : McpHub) (n : String)
    (hn : hasConn h n = false) : mapDelete h.connections n = h.connections := by
  rw [mapDelete, List.filter_eq_self]
  intro c hc
  have : ¬ (c.name == n) = true := by
    intro hcn
    have : h.connections.any (fun c => c.name == n) = true :=
      List.any_eq_true.mpr ⟨c, hc, hcn⟩
    rw [hasConn] at hn
    simp [this] at hn
  simpa using this

theorem lookupConn_eq_none_of_hasConn_false (h : McpHub) (n : String)
    (hn : hasConn h n = false) : lookupConn h n = none := by
  rw [lookupConn, List.find?_eq_none]
  intro c hc hcn
  have : h.connections.any (fun c => c.name == n) = true :=
    List.any_eq_true.mpr ⟨c, hc, hcn⟩
  rw [hasConn] at hn
  simp [this] at hn

theorem exists_lookupConn_of_hasConn (h : McpHub) (n : String)
    (hn : hasConn h n = true) : ∃ c, lookupConn h n = some c := by
  rw [hasConn, List.any_eq_true] at hn
  obtain ⟨c, hc, hcn⟩ := hn
  rcases ho : h.connections.find? (fun c => c.name == n) with _ | c'
  · rw [List.find?_eq_none] at ho
    exact absurd hcn (ho c hc)
  · exact ⟨c', ho⟩

theorem addServer_fst_connections (h : McpHub) (n : String)
    (o : Except String (List McpTool × List McpResource)) :
    ((addServer h n o).1.connections
      = match o with
        | .error _ => mapDelete h.connections n
        | .ok (ts, rs) =>
            mapSet (mapDelete h.connections n)
              { name := n, connected := true, tools := ts, resources := rs })
    ∧ (addServer h n o).1.timeoutMs = h.timeoutMs := by
  by_cases hc : hasConn h n = true
  · obtain ⟨c0, hc0⟩ := exists_lookupConn_of_hasConn h n hc
    cases o with
    | error e => simp [addServer, hc, removeServer, hc0]
    | ok p =>
      obtain ⟨ts, rs⟩ := p
      simp [addServer, hc, removeServer, hc0]
  · have hc' : hasConn h n = false := by
      cases hEq : hasConn h n
      · rfl
      · exact absurd hEq hc
    have hdel := mapDelete_of_hasConn_false h n hc'
    cases o with
    | error e => simp [addServer, hc', hdel]
    | ok p =>
      obtain ⟨ts, rs⟩ := p
      simp [addServer, hc', hdel]

theorem addServer_snd_error (h : McpHub) (n e : String) :
    (addServer h n (.error e)).2 = .error e := by
  by_cases hc : hasConn h n = true <;> simp [addServer, hc]

end McpHub

/-- C1: for every sequence of addServer and removeServer operations,
getAvailableTools() returns exactly the union of the tool catalogs of the
currently registered sessions whose connected flag is true — each connected
session contributes each of its own tools exactly once (multiplicity
equality), and no tool comes from a removed or disconnected session
(membership characterised by the current connected sessions only) — and
getAvailableResources() satisfies the same property for resource catalogs. -/
theorem C1_available_catalogs_union (timeoutMs : Nat) (ops : List HubOp)
    (t : McpTool) (r : McpResource) :
    (McpHub.getAvailableTools (runOps timeoutMs ops)).count t
        = (((runOps timeoutMs ops).connections.filter (fun c => c.connected)).map
            (fun c => c.tools.count t)).sum
    ∧ (t ∈ McpHub.getAvailableTools (runOps timeoutMs ops) ↔
        ∃ c ∈ (runOps timeoutMs ops).connections, c.connected = true ∧ t ∈ c.tools)
    ∧ (McpHub.getAvailableResources (runOps timeoutMs ops)).count r
        = (((runOps timeoutMs ops).connections.filter (fun c => c.connected)).map
            (fun c => c.resources.count r)).sum
    ∧ (r ∈ McpHub.getAvailableResources (runOps timeoutMs ops) ↔
        ∃ c ∈ (runOps timeoutMs ops).connections, c.connected = true ∧ r ∈ c.resources) := by
  refine ⟨?_, McpHub.mem_getAvailableTools _ t, ?_, McpHub.mem_getAvailableResources _ r⟩
  · rw [McpHub.getAvailableTools_eq, McpHub.count_flatMap_eq_sum]
  · rw [McpHub.getAvailableResources_eq, McpHub.count_flatMap_eq_sum]

/-- C2: whenever addServer(d) is called while a session is already registered
under d.name, the old session is discarded before the new connection is
attempted: a tool present only in the old session's catalog (and not in the
new one) is absent from getAvailableTools() after the call settles, even when
the new connection attempt fails; in the failure case no session remains
registered under the name at all. -/
theorem C2_replace_discards_old_catalog (h : McpHub) (n : String)
    (o : Except String (List McpTool × List McpResource)) (t : McpTool)
    (_hreg : McpHub.hasConn h n = true)
    (honly : ∀ c ∈ h.connections, c.name ≠ n → t ∉ c.tools)
    (hfresh : ∀ ts rs, o = .ok (ts, rs) → t ∉ ts) :
    t ∉ McpHub.getAvailableTools (McpHub.addServer h n o).1
    ∧ ∀ e, o = .error e →
        McpHub.lookupConn (McpHub.addServer h n o).1 n = none := by
  have hconn := (McpHub.addServer_fst_connections h n o).1
  constructor
  · rw [McpHub.mem_getAvailableTools]
    rintro ⟨c, hcmem, _hcconn, htool⟩
    rw [hconn] at hcmem
    cases o with
    | error e =>
      have hmd := (McpHub.mem_mapDelete _ _ _).mp hcmem
      exact honly c hmd.1 hmd.2 htool
    | ok p =>
      obtain ⟨ts, rs⟩ := p
      rcases McpHub.mem_mapSet _ _ _ hcmem with hc1 | hc1
      · have : t ∈ ts := by
          have hc2 : c.tools = ts := by rw [hc1]
          rw [hc2] at htool
          exact htool
        exact hfresh ts rs rfl this
      · have hmd := (McpHub.mem_mapDelete _ _ _).mp hc1
        exact honly c hmd.1 hmd.2 htool
  · intro e he
    subst he
    show ((McpHub.addServer h n (.error e)).1.connections.find? (fun c => c.name == n)) = none
    rw [hconn]
    exact McpHub.find?_mapDelete _ n

/-- C2 witness: concrete replace of server `a` (sole provider of tool `t1`)
whose reconnection fails: `t1` is gone and `a` is unregistered. -/
theorem C2_replace_witness :
    ({ name := "t1", description := "d" } : McpTool)
        ∉ McpHub.getAvailableTools (McpHub.addServer hubA "a" (.error "connect failed")).1
    ∧ ∀ e, (Except.error "connect failed" :
          Except String (List McpTool × List McpResource)) = .error e →
        McpHub.lookupConn (McpHub.addServer hubA "a" (.error "connect failed")).1 "a" = none :=
  C2_replace_discards_old_catalog hubA "a" (.error "connect failed")
    { name := "t1", description := "d" }
    (by decide) (by decide) (fun ts rs hcontra => by cases hcontra)

/-- C7 counterexample: with a session already registered under `a`, a failing
addServer for `a` does NOT leave the session map exactly as it was before the
call: the prior session under `a` has been removed. -/
theorem C7_counterexample :
    (McpHub.addServer hubA "a" (.error "connect failed")).2
        = .error "connect failed"
    ∧ (McpHub.addServer hubA "a" (.error "connect failed")).1 ≠ hubA := by
  constructor
  · exact McpHub.addServer_snd_error hubA "a" "connect failed"
  · intro hEq
    have hc := (McpHub.addServer_fst_connections hubA "a" (.error "connect failed")).1
    have hlen : (McpHub.addServer hubA "a" (.error "connect failed")).1.connections.length
        = hubA.connections.length := by rw [hEq]
    rw [hc] at hlen
    simp [McpHub.mapDelete, hubA] at hlen

/-- C7 amended: whenever addServer(d) fails with a ConnectionError, no session
is registered under d.name afterwards and every session under a different
name is untouched (in order); a prior session under d.name, however, has
already been disconnected and removed by the replace step, so the map is the
prior map with any d.name entry deleted, not necessarily the prior map
itself. -/
theorem C7_failed_addServer_state (h : McpHub) (n : String)
    (o : Except String (List McpTool × List McpResource)) (e : String)
    (he : o = .error e) :
    (McpHub.addServer h n o).2 = .error e
    ∧ McpHub.lookupConn (McpHub.addServer h n o).1 n = none
    ∧ (McpHub.addServer h n o).1.connections
        = h.connections.filter (fun c => c.name != n)
    ∧ (McpHub.addServer h n o).1.timeoutMs = h.timeoutMs := by
  subst he
  have hconn := (McpHub.addServer_fst_connections h n (.error e)).1
  refine ⟨McpHub.addServer_snd_error h n e, ?_, ?_,
    (McpHub.addServer_fst_connections h n (.error e)).2⟩
  · show ((McpHub.addServer h n (.error e)).1.connections.find? (fun c => c.name == n)) = none
    rw [hconn]
    exact McpHub.find?_mapDelete _ n
  · rw [hconn]
    rfl

/-- C5: callTool fails with NotConnectedError exactly when no session is
registered under the server name or its connected flag is false; when
connected, it fails with ToolNotFoundError exactly when the tool name is
absent from the session catalog; a transport failure is wrapped as a
ToolExecutionError carrying the underlying cause, and a transport success
returns the content items and the server-set error flag (defaulted). -/
theorem C5_callTool_contract (h : McpHub) (tr : Transport) (sn tn args : String) :
    (McpHub.callTool h tr sn tn args = .error (.notConnected sn)
      ↔ ¬ ∃ c, McpHub.lookupConn h sn = some c ∧ c.connected = true)
    ∧ (McpHub.callTool h tr sn tn args = .error (.toolNotFound tn sn)
      ↔ ∃ c, McpHub.lookupConn h sn = some c ∧ c.connected = true
          ∧ ∀ t ∈ c.tools, t.name ≠ tn)
    ∧ (∀ c, McpHub.lookupConn h sn = some c → c.connected = true →
        (∃ t ∈ c.tools, t.name = tn) →
        (∀ cause, tr sn tn args = .error cause →
            McpHub.callTool h tr sn tn args = .error (.toolExecution tn cause))
        ∧ ∀ r, tr sn tn args = .ok r →
            McpHub.callTool h tr sn tn args
              = .ok { content := r.content.getD [], isError := r.isError.getD false }) := by
  rcases hl : McpHub.lookupConn h sn with _ | c
  · refine ⟨?_, ?_, ?_⟩
    · constructor
      · rintro _ ⟨c', hc', _⟩
        cases hc'
      · intro _
        simp [McpHub.callTool, hl]
    · constructor
      · intro hres
        simp [McpHub.callTool, hl] at hres
      · rintro ⟨c', hc', _⟩
        cases hc'
    · intro c' hc'
      cases hc'
  · by_cases hcn : c.connected = true
    · rcases hf : c.tools.find? (fun t => t.name == tn) with _ | tf
      · have hall : ∀ t ∈ c.tools, t.name ≠ tn := by
          intro t ht
          have := List.find?_eq_none.mp hf t ht
          simpa using this
        refine ⟨?_, ?_, ?_⟩
        · constructor
          · intro hres
            simp [McpHub.callTool, hl, hcn, hf] at hres
          · intro hno
            exact absurd ⟨c, rfl, hcn⟩ hno
        · constructor
          · intro _
            exact ⟨c, rfl, hcn, hall⟩
          · intro _
            simp [McpHub.callTool, hl, hcn, hf]
        · intro c' hc' _hconn' hex
          injection hc' with hc'
          subst hc'
          obtain ⟨t, ht, htn⟩ := hex
          exact absurd htn (hall t ht)
      · have htf_mem := List.mem_of_find?_eq_some hf
        have htf_name : tf.name = tn := by
          have := List.find?_some hf
          simpa using this
        rcases htr : tr sn tn args with cause | r
        · refine ⟨?_, ?_, ?_⟩
          · constructor
            · intro hres
              simp [McpHub.callTool, hl, hcn, hf, htr] at hres
            · intro hno
              exact absurd ⟨c, rfl, hcn⟩ hno
          · constructor
            · intro hres
              simp [McpHub.callTool, hl, hcn, hf, htr] at hres
            · rintro ⟨c', hc', _hconn', hall⟩
              injection hc' with hc'
              subst hc'
              exact absurd htf_name (hall tf htf_mem)
          · intro c' hc' _hconn' _hex
            constructor
            · intro cause' hcause'
              injection hcause' with hcause'
              subst hcause'
              simp [McpHub.callTool, hl, hcn, hf, htr]
            · intro r' hr'
              cases hr'
        · refine ⟨?_, ?_, ?_⟩
          · constructor
            · intro hres
              simp [McpHub.callTool, hl, hcn, hf, htr] at hres
            · intro hno
              exact absurd ⟨c, rfl, hcn⟩ hno
          · constructor
            · intro hres
              simp [McpHub.callTool, hl, hcn, hf, htr] at hres
            · rintro ⟨c', hc', _hconn', hall⟩
              injection hc' with hc'
              subst hc'
              exact absurd htf_name (hall tf htf_mem)
          · intro c' hc' _hconn' _hex
            constructor
            · intro cause hcause
              cases hcause
            · intro r' hr'
              injection hr' with hr'
              subst hr'
              simp [McpHub.callTool, hl, hcn, hf, htr]
    · have hcn' : c.connected = false := by
        cases hb : c.connected
        · rfl
        · exact absurd hb hcn
      refine ⟨?_, ?_, ?_⟩
      · constructor
        · rintro _ ⟨c', hc', hconn'⟩
          injection hc' with hc'
          subst hc'
          exact hcn hconn'
        · intro _
          simp [McpHub.callTool, hl, hcn']
      · constructor
        · intro hres
          simp [McpHub.callTool, hl, hcn'] at hres
        · rintro ⟨c', hc', hconn', _⟩
          injection hc' with hc'
          subst hc'
          exact absurd hconn' hcn
      · intro c' hc' hconn' _
        injection hc' with hc'
        subst hc'
        exact absurd hconn' hcn

/-- C5 witness: on the concrete connected hub, calling the registered tool
through the always-successful transport returns the normalised payload. -/
theorem C5_callTool_witness :
    McpHub.callTool hubA trOkHi "a" "t1" "x"
      = .ok { content := [{ type := "text", text := some "hi" }], isError := false } := by
  have hmain := (C5_callTool_contract hubA trOkHi "a" "t1" "x").2.2
      { name := "a", connected := true,
        tools := [{ name := "t1", description := "d" }], resources := [] }
      (by decide) rfl
      ⟨({ name := "t1", description := "d" } : McpTool), by simp, rfl⟩
  exact hmain.2
    ({ content := some [{ type := "text", text := some "hi" }], isError := none } :
      RawCallResult)
    (by rfl)

/-- C6: code-bug evidence — the hub forwards tools/call and resources/read
without any timeout option (the `client.request` calls pass no options
object), so the configured timeoutMs (here the default 30000) is never
attached to a forwarded request, contrary to the spec sentence that every
Hub-issued call carries the configured timeout. -/
theorem C6_no_timeout_attached :
    McpHub.toolCallRequestTimeout hubA "a" "t1" = none
    ∧ McpHub.toolCallRequestTimeout hubA "a" "t1" ≠ some hubA.timeoutMs
    ∧ McpHub.resourceReadRequestTimeout hubA "a" "r1" = none := by
  refine ⟨rfl, ?_, rfl⟩
  intro hcontra
  exact Option.noConfusion hcontra

/-- C7 amended witness at the concrete failing replace of `a` on `hubA`. -/
theorem C7_failed_addServer_witness :
    (McpHub.addServer hubA "a" (.error "x")).2 = .error "x"
    ∧ McpHub.lookupConn (McpHub.addServer hubA "a" (.error "x")).1 "a" = none
    ∧ (McpHub.addServer hubA "a" (.error "x")).1.connections
        = hubA.connections.filter (fun c => c.name != "a")
    ∧ (McpHub.addServer hubA "a" (.error "x")).1.timeoutMs = hubA.timeoutMs :=
  C7_failed_addServer_state hubA "a" (.error "x") "x" rfl

namespace ChatEngine

theorem executeToolCalls_eq_map (hub : McpHub) (tr : Transport) (parse : JsonParse)
    (tcs : List ToolCall) :
    executeToolCalls hub tr parse tcs = tcs.map (execOne hub tr parse) := by
  induction tcs with
  | nil => rfl
  | cons tc rest ih => simp [executeToolCalls, ih]

theorem execOne_toolCallId (hub : McpHub) (tr : Transport) (parse : JsonParse)
    (tc : ToolCall) :
    (execOne hub tr parse tc).toolCallId = tc.id := by
  cases hp : parse tc.arguments with
  | error e => simp [execOne, hp]
  | ok args =>
    cases hx : executeToolCall hub tr tc.name args with
    | error e => simp [execOne, hp, hx]
    | ok out => simp [execOne, hp, hx]

theorem executeToolCalls_ids (hub : McpHub) (tr : Transport) (parse : JsonParse)
    (tcs : List ToolCall) :
    (executeToolCalls hub tr parse tcs).map (fun r => r.toolCallId)
      = tcs.map (fun c => c.id) := by
  induction tcs with
  | nil => rfl
  | cons tc rest ih => simp [executeToolCalls, execOne_toolCallId, ih]

theorem probeServers_all_fail (hub : McpHub) (tr : Transport) (tn args : String)
    (names : List String)
    (hfail : ∀ n ∈ names, ∃ e, McpHub.callTool hub tr n tn args = .error e) :
    probeServers hub tr tn args names
      = .error ("No server could execute tool " ++ tn) := by
  induction names with
  | nil => rfl
  | cons n rest ih =>
    obtain ⟨e, he⟩ := hfail n (List.mem_cons_self n rest)
    simp only [probeServers, he]
    exact ih fun m hm => hfail m (List.mem_cons_of_mem n hm)

theorem probeServers_first_success (hub : McpHub) (tr : Transport) (tn args : String)
    (l₁ : List String) (n : String) (l₂ : List String) (resp : McpToolResponse)
    (hfail : ∀ m ∈ l₁, ∃ e, McpHub.callTool hub tr m tn args = .error e)
    (hok : McpHub.callTool hub tr n tn args = .ok resp) :
    probeServers hub tr tn args (l₁ ++ n :: l₂)
      = .ok (formatContent resp.content) := by
  induction l₁ with
  | nil => simp only [List.nil_append, probeServers, hok]
  | cons m rest ih =>
    obtain ⟨e, he⟩ := hfail m (List.mem_cons_self m rest)
    simp only [List.cons_append, probeServers, he]
    exact ih fun x hx => hfail x (List.mem_cons_of_mem m hx)

theorem pendingFree_append (msgs : List Message) (m : Message)
    (h1 : pendingFree msgs)
    (h2 : m.role = "assistant" → m.toolCalls.getD [] ≠ [] →
      ∃ trs, m.toolResults = some trs
        ∧ trs.map (fun r => r.toolCallId) = (m.toolCalls.getD []).map (fun c => c.id)) :
    pendingFree (msgs ++ [m]) := by
  intro mp hmp hrole hcalls
  rcases List.mem_append.mp hmp with hin | hin
  · exact h1 mp hin hrole hcalls
  · rw [List.mem_singleton] at hin
    subst hin
    exact h2 hrole hcalls

theorem chatLoop_pendingFree (hub : McpHub) (tr : Transport) (parse : JsonParse)
    (llm : LLM) :
    ∀ (fuel : Nat) (msgs : List Message) (fr : String) (calls : Nat),
      pendingFree msgs →
      pendingFree (ChatOutcome.messages
        (chatLoop hub tr parse llm true fuel msgs fr calls)) := by
  intro fuel
  induction fuel with
  | zero =>
    intro msgs fr calls h
    simpa [chatLoop, ChatOutcome.messages] using h
  | succ f ih =>
    intro msgs fr calls h
    cases hllm : llm msgs (McpHub.getAvailableTools hub) with
    | error e => simpa [chatLoop, hllm, ChatOutcome.messages] using h
    | ok resp =>
      by_cases htc : resp.toolCalls.getD [] = []
      · have hstep : chatLoop hub tr parse llm true (f + 1) msgs fr calls
            = .ok (msgs ++ [assistantMessage resp]) resp.content (calls + 1) := by
          simp [chatLoop, hllm, htc]
        rw [hstep]
        exact pendingFree_append msgs (assistantMessage resp) h
          (fun _ hcalls => absurd htc hcalls)
      · have hstep : chatLoop hub tr parse llm true (f + 1) msgs fr calls
            = chatLoop hub tr parse llm true f
                (msgs ++ [{ assistantMessage resp with
                    toolResults :=
                      some (executeToolCalls hub tr parse (resp.toolCalls.getD [])) }])
                resp.content (calls + 1) := by
          simp [chatLoop, hllm, htc]
        rw [hstep]
        apply ih
        apply pendingFree_append msgs _ h
        intro _ _
        exact ⟨executeToolCalls hub tr parse (resp.toolCalls.getD []), rfl,
          executeToolCalls_ids hub tr parse (resp.toolCalls.getD [])⟩

theorem chatLoop_llmCalls_le (hub : McpHub) (tr : Transport) (parse : JsonParse)
    (llm : LLM) (auto : Bool) :
    ∀ (fuel : Nat) (msgs : List Message) (fr : String) (calls : Nat),
      (chatLoop hub tr parse llm auto fuel msgs fr calls).llmCalls ≤ calls + fuel := by
  intro fuel
  induction fuel with
  | zero =>
    intro msgs fr calls
    simp [chatLoop, ChatOutcome.llmCalls]
  | succ f ih =>
    intro msgs fr calls
    cases hllm : llm msgs (McpHub.getAvailableTools hub) with
    | error e =>
      have hstep : chatLoop hub tr parse llm auto (f + 1) msgs fr calls
          = .err msgs e (calls + 1) := by
        simp [chatLoop, hllm]
      rw [hstep]
      simp [ChatOutcome.llmCalls]
    | ok resp =>
      by_cases htc : resp.toolCalls.getD [] = []
      · have hstep : chatLoop hub tr parse llm auto (f + 1) msgs fr calls
            = .ok (msgs ++ [assistantMessage resp]) resp.content (calls + 1) := by
          simp [chatLoop, hllm, htc]
        rw [hstep]
        simp [ChatOutcome.llmCalls]
      · cases auto with
        | false =>
          have hstep : chatLoop hub tr parse llm false (f + 1) msgs fr calls
              = .ok (msgs ++ [assistantMessage resp]) resp.content (calls + 1) := by
            simp [chatLoop, hllm, htc]
          rw [hstep]
          simp [ChatOutcome.llmCalls]
        | true =>
          have hstep : chatLoop hub tr parse llm true (f + 1) msgs fr calls
              = chatLoop hub tr parse llm true f
                  (msgs ++ [{ assistantMessage resp with
                      toolResults :=
                        some (executeToolCalls hub tr parse (resp.toolCalls.getD [])) }])
                  resp.content (calls + 1) := by
            simp [chatLoop, hllm, htc]
          rw [hstep]
          have := ih (msgs ++ [{ assistantMessage resp with
              toolResults :=
                some (executeToolCalls hub tr parse (resp.toolCalls.getD [])) }])
            resp.content (calls + 1)
          omega

theorem getLast?_append_one {α : Type} (l : List α) (a : α) :
    (l ++ [a]).getLast? = some a := by
  rw [← List.concat_eq_append]
  simp [List.getLast?_concat]

theorem chatLoop_always_tools (hub : McpHub) (tr : Transport) (parse : JsonParse)
    (llm : LLM)
    (hal : ∀ msgs, ∃ r, llm msgs (McpHub.getAvailableTools hub) = .ok r
        ∧ r.toolCalls.getD [] ≠ []) :
    ∀ (fuel : Nat), 1 ≤ fuel → ∀ (msgs : List Message) (fr : String) (calls : Nat),
      ∃ msgs' resp, chatLoop hub tr parse llm true fuel msgs fr calls
          = .ok msgs' resp (calls + fuel)
        ∧ ∃ m, msgs'.getLast? = some m ∧ m.role = "assistant" ∧ m.content = resp := by
  intro fuel
  induction fuel with
  | zero => intro h1; exact absurd h1 (by omega)
  | succ f ih =>
    intro _ msgs fr calls
    obtain ⟨r, hr, htc⟩ := hal msgs
    have hstep : chatLoop hub tr parse llm true (f + 1) msgs fr calls
        = chatLoop hub tr parse llm true f
            (msgs ++ [{ assistantMessage r with
                toolResults :=
                  some (executeToolCalls hub tr parse (r.toolCalls.getD [])) }])
            r.content (calls + 1) := by
      simp [chatLoop, hr, htc]
    cases f with
    | zero =>
      refine ⟨msgs ++ [{ assistantMessage r with
          toolResults :=
            some (executeToolCalls hub tr parse (r.toolCalls.getD [])) }],
        r.content, ?_, ?_⟩
      · rw [hstep]
        rfl
      · exact ⟨_, getLast?_append_one _ _, rfl, rfl⟩
    | succ fp =>
      obtain ⟨msgs', resp, hmain, hlast⟩ := ih (by omega)
        (msgs ++ [{ assistantMessage r with
            toolResults :=
              some (executeToolCalls hub tr parse (r.toolCalls.getD [])) }])
        r.content (calls + 1)
      refine ⟨msgs', resp, ?_, hlast⟩
      rw [hstep, hmain]
      have harith : calls + 1 + (fp + 1) = calls + (fp + 1 + 1) := by omega
      rw [harith]

theorem chatLoop_err_extends (hub : McpHub) (tr : Transport) (parse : JsonParse)
    (llm : LLM) (auto : Bool) :
    ∀ (fuel : Nat) (msgs : List Message) (fr : String) (calls : Nat)
      (msgs' : List Message) (e : String) (calls' : Nat),
      chatLoop hub tr parse llm auto fuel msgs fr calls = .err msgs' e calls' →
      ∃ rest, msgs' = msgs ++ rest ∧ calls' = calls + rest.length + 1
        ∧ ∀ m ∈ rest, m.role = "assistant" := by
  intro fuel
  induction fuel with
  | zero =>
    intro msgs fr calls msgs' e calls' h
    simp [chatLoop] at h
  | succ f ih =>
    intro msgs fr calls msgs' e' calls' h
    cases hllm : llm msgs (McpHub.getAvailableTools hub) with
    | error e0 =>
      have hstep : chatLoop hub tr parse llm auto (f + 1) msgs fr calls
          = .err msgs e0 (calls + 1) := by
        simp [chatLoop, hllm]
      rw [hstep] at h
      injection h with h1 h2 h3
      subst h1
      subst h2
      subst h3
      exact ⟨[], by simp, by simp, by intro m hm; cases hm⟩
    | ok resp =>
      by_cases htc : resp.toolCalls.getD [] = []
      · have hstep : chatLoop hub tr parse llm auto (f + 1) msgs fr calls
            = .ok (msgs ++ [assistantMessage resp]) resp.content (calls + 1) := by
          simp [chatLoop, hllm, htc]
        rw [hstep] at h
        cases h
      · cases auto with
        | false =>
          have hstep : chatLoop hub tr parse llm false (f + 1) msgs fr calls
              = .ok (msgs ++ [assistantMessage resp]) resp.content (calls + 1) := by
            simp [chatLoop, hllm, htc]
          rw [hstep] at h
          cases h
        | true =>
          have hstep : chatLoop hub tr parse llm true (f + 1) msgs fr calls
              = chatLoop hub tr parse llm true f
                  (msgs ++ [{ assistantMessage resp with
                      toolResults :=
                        some (executeToolCalls hub tr parse (resp.toolCalls.getD [])) }])
                  resp.content (calls + 1) := by
            simp [chatLoop, hllm, htc]
          rw [hstep] at h
          obtain ⟨rest, hmsgs, hcalls, hroles⟩ := ih _ _ _ _ _ _ h
          refine ⟨{ assistantMessage resp with
              toolResults :=
                some (executeToolCalls hub tr parse (resp.toolCalls.getD [])) } :: rest,
            ?_, ?_, ?_⟩
          · rw [hmsgs, List.append_assoc]
            rfl
          · simp at hcalls ⊢
            omega
          · intro m hm
            rcases List.mem_cons.mp hm with hm1 | hm1
            · rw [hm1]
              rfl
            · exact hroles m hm1

theorem resolveAux_eq_none_iff (callId : String) (t : ToolResult) :
    ∀ (msgs : List Message),
      resolveAux callId t msgs = none ↔ ∀ m ∈ msgs, msgMatches m callId = false := by
  intro msgs
  induction msgs with
  | nil => simp [resolveAux]
  | cons m rest ih =>
    constructor
    · intro h
      cases hr : resolveAux callId t rest with
      | some rest2 =>
        rw [resolveAux, hr] at h
        cases h
      | none =>
        rw [resolveAux, hr] at h
        by_cases hm : msgMatches m callId = true
        · rw [if_pos hm] at h
          cases h
        · have hm2 : msgMatches m callId = false := by
            cases hb : msgMatches m callId
            · rfl
            · exact absurd hb hm
          intro mp hmp
          rcases List.mem_cons.mp hmp with h1 | h1
          · rw [h1]
            exact hm2
          · exact (ih.mp hr) mp h1
    · intro hall
      have hr : resolveAux callId t rest = none :=
        ih.mpr fun x hx => hall x (List.mem_cons_of_mem m hx)
      rw [resolveAux, hr]
      rw [if_neg]
      intro hm
      have := hall m (List.mem_cons_self m rest)
      rw [hm] at this
      cases this

theorem resolveAux_last_match (callId : String) (t : ToolResult) :
    ∀ (l₁ : List Message) (m : Message) (l₂ : List Message),
      msgMatches m callId = true →
      (∀ mp ∈ l₂, msgMatches mp callId = false) →
      resolveAux callId t (l₁ ++ m :: l₂) = some (l₁ ++ attachResult m t :: l₂) := by
  intro l₁
  induction l₁ with
  | nil =>
    intro m l₂ hm hl₂
    have hnone : resolveAux callId t l₂ = none :=
      (resolveAux_eq_none_iff callId t l₂).mpr hl₂
    rw [List.nil_append, resolveAux, hnone, if_pos hm]
    rfl
  | cons x rest ih =>
    intro m l₂ hm hl₂
    rw [List.cons_append, resolveAux, ih m l₂ hm hl₂]
    rfl

end ChatEngine

/-- C3: when an LLM response contains tool calls and automatic execution is
enabled, the calls are executed strictly sequentially in emission order, each
producing exactly one Tool Result carrying the matching call identifier; each
call is routed by probing the hub server names in registration order until
one succeeds (first success wins); a call that fails on every server (or
whose arguments fail to parse) yields a Tool Result with its error flag set
rather than aborting the turn; and in auto-execution mode every assistant
Turn in the transcript carries results correlated one to one, in order, to
its requested calls — they are attached before the Turn is appended. -/
theorem C3_sequential_tool_execution (hub : McpHub) (tr : Transport)
    (parse : JsonParse) (llm : LLM) (tcs : List ToolCall) (toolName args : String) :
    (ChatEngine.executeToolCalls hub tr parse tcs
        = tcs.map (ChatEngine.execOne hub tr parse))
    ∧ ((ChatEngine.executeToolCalls hub tr parse tcs).map (fun r => r.toolCallId)
        = tcs.map (fun c => c.id))
    ∧ (∀ l₁ n l₂ resp,
        (∀ m ∈ l₁, ∃ e, McpHub.callTool hub tr m toolName args = .error e) →
        McpHub.callTool hub tr n toolName args = .ok resp →
        ChatEngine.probeServers hub tr toolName args (l₁ ++ n :: l₂)
          = .ok (ChatEngine.formatContent resp.content))
    ∧ ((∀ n ∈ McpHub.getServerNames hub,
          ∃ e, McpHub.callTool hub tr n toolName args = .error e) →
        ChatEngine.probeServers hub tr toolName args (McpHub.getServerNames hub)
          = .error ("No server could execute tool " ++ toolName))
    ∧ (∀ tc pargs e, parse tc.arguments = .ok pargs →
        ChatEngine.executeToolCall hub tr tc.name pargs = .error e →
        ChatEngine.execOne hub tr parse tc
          = { toolCallId := tc.id, content := "Error: " ++ e, isError := true })
    ∧ (∀ fuel msgs fr calls, ChatEngine.pendingFree msgs →
        ChatEngine.pendingFree (ChatEngine.ChatOutcome.messages
          (ChatEngine.chatLoop hub tr parse llm true fuel msgs fr calls))) := by
  refine ⟨ChatEngine.executeToolCalls_eq_map hub tr parse tcs,
    ChatEngine.executeToolCalls_ids hub tr parse tcs, ?_, ?_, ?_, ?_⟩
  · intro l₁ n l₂ resp hfail hok
    exact ChatEngine.probeServers_first_success hub tr toolName args l₁ n l₂ resp hfail hok
  · intro hfail
    exact ChatEngine.probeServers_all_fail hub tr toolName args _ hfail
  · intro tc pargs e hp hx
    simp [ChatEngine.execOne, hp, hx]
  · intro fuel msgs fr calls h
    exact ChatEngine.chatLoop_pendingFree hub tr parse llm fuel msgs fr calls h

/-- C3 witness: two registered servers, a transport failing on the first and
succeeding on the second, one resolvable and one unknown tool call. -/
theorem C3_sequential_tool_execution_witness :
    (ChatEngine.executeToolCalls hub2 trMix parseId
        [{ id := "c1", name := "t1", arguments := "x" },
         { id := "c2", name := "missing", arguments := "x" }]
      = [{ id := "c1", name := "t1", arguments := "x" },
         { id := "c2", name := "missing", arguments := "x" }].map
          (ChatEngine.execOne hub2 trMix parseId))
    ∧ ((ChatEngine.executeToolCalls hub2 trMix parseId
          [{ id := "c1", name := "t1", arguments := "x" },
           { id := "c2", name := "missing", arguments := "x" }]).map
            (fun r => r.toolCallId) = ["c1", "c2"])
    ∧ ChatEngine.probeServers hub2 trMix "t1" "x" (["a"] ++ "b" :: [])
        = .ok (ChatEngine.formatContent [{ type := "text", text := some "hi" }])
    ∧ ChatEngine.probeServers hub2 trFail "t1" "x" (McpHub.getServerNames hub2)
        = .error ("No server could execute tool " ++ "t1")
    ∧ ChatEngine.execOne hub2 trMix parseId { id := "c2", name := "missing", arguments := "x" }
        = { toolCallId := "c2",
            content := "Error: " ++ ("Tool " ++ "missing" ++ " not found"),
            isError := true }
    ∧ ChatEngine.pendingFree (ChatEngine.ChatOutcome.messages
        (ChatEngine.chatLoop hub2 trMix parseId llmAlwaysTool true 1 [] "" 0)) := by
  have hmix := C3_sequential_tool_execution hub2 trMix parseId llmAlwaysTool
    [{ id := "c1", name := "t1", arguments := "x" },
     { id := "c2", name := "missing", arguments := "x" }] "t1" "x"
  have hfailall := C3_sequential_tool_execution hub2 trFail parseId llmAlwaysTool [] "t1" "x"
  refine ⟨hmix.1, hmix.2.1, ?_, ?_, ?_, ?_⟩
  · exact hmix.2.2.1 ["a"] "b" []
      { content := [{ type := "text", text := some "hi" }], isError := false }
      (by
        intro m hm
        rw [List.mem_singleton] at hm
        subst hm
        exact ⟨McpError.toolExecution "t1" "boom", rfl⟩)
      rfl
  · exact hfailall.2.2.2.1
      (by
        intro n hn
        have hn2 : n = "a" ∨ n = "b" := by
          simpa [McpHub.getServerNames, hub2] using hn
        rcases hn2 with rfl | rfl
        · exact ⟨McpError.toolExecution "t1" "boom", rfl⟩
        · exact ⟨McpError.toolExecution "t1" "boom", rfl⟩)
  · exact hmix.2.2.2.2.1 { id := "c2", name := "missing", arguments := "x" } "x"
      ("Tool " ++ "missing" ++ " not found") rfl rfl
  · exact hmix.2.2.2.2.2 1 [] "" 0 (fun m hm => absurd hm (List.not_mem_nil m))

/-- C4: for every maxTurns (default 10 when not supplied), a single chat call
makes at most maxTurns LLM invocations and terminates; with automatic
execution enabled and an LLM that requests a tool call on every response,
chat returns normally — no exception for ceiling exhaustion — after exactly
maxTurns invocations, and the returned text is the content of the last
appended assistant Turn. -/
theorem C4_turn_ceiling (hub : McpHub) (tr : Transport) (parse : JsonParse)
    (llm : LLM) (opts : ChatEngine.ChatOptions) (msgs0 : List Message) (input : String) :
    (ChatEngine.chat hub tr parse llm opts msgs0 input).llmCalls
        ≤ opts.maxTurns.getD 10
    ∧ (opts.autoExecuteTools.getD true = true →
       (∀ msgs, ∃ r, llm msgs (McpHub.getAvailableTools hub) = .ok r
           ∧ r.toolCalls.getD [] ≠ []) →
       1 ≤ opts.maxTurns.getD 10 →
       ∃ msgs' resp, ChatEngine.chat hub tr parse llm opts msgs0 input
           = .ok msgs' resp (opts.maxTurns.getD 10)
         ∧ ∃ m, msgs'.getLast? = some m ∧ m.role = "assistant" ∧ m.content = resp) := by
  constructor
  · have := ChatEngine.chatLoop_llmCalls_le hub tr parse llm
      (opts.autoExecuteTools.getD true) (opts.maxTurns.getD 10)
      (msgs0 ++ [ChatEngine.userMessage input]) "" 0
    simpa [ChatEngine.chat] using this
  · intro hauto hal h1
    have := ChatEngine.chatLoop_always_tools hub tr parse llm hal
      (opts.maxTurns.getD 10) h1 (msgs0 ++ [ChatEngine.userMessage input]) "" 0
    simpa [ChatEngine.chat, hauto] using this

/-- C4 witness: maxTurns = 2 with an LLM that always requests a tool call —
exactly 2 invocations and a normal return ending in an assistant Turn. -/
theorem C4_turn_ceiling_witness :
    (ChatEngine.chat hub2 trMix parseId llmAlwaysTool
        { maxTurns := some 2, autoExecuteTools := none } [] "hello").llmCalls ≤ 2
    ∧ ∃ msgs' resp, ChatEngine.chat hub2 trMix parseId llmAlwaysTool
          { maxTurns := some 2, autoExecuteTools := none } [] "hello"
        = .ok msgs' resp 2
      ∧ ∃ m, msgs'.getLast? = some m ∧ m.role = "assistant" ∧ m.content = resp := by
  have h := C4_turn_ceiling hub2 trMix parseId llmAlwaysTool
    { maxTurns := some 2, autoExecuteTools := none } [] "hello"
  exact ⟨h.1, h.2 rfl (fun msgs => ⟨_, rfl, by decide⟩) (by decide)⟩

/-- C9: resolveToolCall appends the Tool Result to the nearest (most recent)
assistant Turn containing a Tool Call with the identifier; it fails with
UnknownToolCallError, leaving the transcript unmodified, exactly when no
matching call exists anywhere in the transcript. -/
theorem C9_manual_resolution (msgs : List Message) (callId res : String) (isErr : Bool) :
    (ChatEngine.executeToolManually msgs callId res isErr
        = (msgs, .error ("Tool call " ++ callId ++ " not found"))
      ↔ ∀ m ∈ msgs, ChatEngine.msgMatches m callId = false)
    ∧ (∀ l₁ m l₂, msgs = l₁ ++ m :: l₂ →
        ChatEngine.msgMatches m callId = true →
        (∀ mp ∈ l₂, ChatEngine.msgMatches mp callId = false) →
        ChatEngine.executeToolManually msgs callId res isErr
          = (l₁ ++ ChatEngine.attachResult m
                { toolCallId := callId, content := res, isError := isErr } :: l₂,
             .ok ())) := by
  constructor
  · constructor
    · intro h
      cases hr : ChatEngine.resolveAux callId
          { toolCallId := callId, content := res, isError := isErr } msgs with
      | some msgs2 =>
        simp only [ChatEngine.executeToolManually, hr] at h
        simp at h
      | none =>
        exact (ChatEngine.resolveAux_eq_none_iff callId _ msgs).mp hr
    · intro hall
      have hr : ChatEngine.resolveAux callId
          { toolCallId := callId, content := res, isError := isErr } msgs = none :=
        (ChatEngine.resolveAux_eq_none_iff callId _ msgs).mpr hall
      simp [ChatEngine.executeToolManually, hr]
  · intro l₁ m l₂ hdecomp hm hl₂
    subst hdecomp
    have hres := ChatEngine.resolveAux_last_match callId
      { toolCallId := callId, content := res, isError := isErr } l₁ m l₂ hm hl₂
    simp [ChatEngine.executeToolManually, hres]

/-- C9 witness: an unknown identifier raises the error and leaves the
two-turn transcript unchanged; the known identifier resolves onto the
assistant Turn. -/
theorem C9_manual_resolution_witness :
    ChatEngine.executeToolManually [ChatEngine.userMessage "q", asst9] "zz" "out" false
        = ([ChatEngine.userMessage "q", asst9],
           .error ("Tool call " ++ "zz" ++ " not found"))
    ∧ ChatEngine.executeToolManually [ChatEngine.userMessage "q", asst9] "c1" "out" false
        = ([ChatEngine.userMessage "q",
            ChatEngine.attachResult asst9
              { toolCallId := "c1", content := "out", isError := false }],
           .ok ()) := by
  constructor
  · exact (C9_manual_resolution [ChatEngine.userMessage "q", asst9] "zz" "out" false).1.mpr
      (by decide)
  · exact (C9_manual_resolution [ChatEngine.userMessage "q", asst9] "c1" "out" false).2
      [ChatEngine.userMessage "q"] asst9 [] rfl (by decide)
      (fun mp hmp => absurd hmp (List.not_mem_nil mp))

/-- C10: chat is not atomic with respect to the transcript on LLM failure —
a rejection of the LLM capability during any iteration propagates to the
caller and the transcript permanently retains the user Turn appended at the
start of the call together with the assistant Turn (carrying its tool
results) appended by each earlier completed iteration; no rollback occurs,
and a failure on invocation k leaves exactly k-1 such assistant Turns. -/
theorem C10_no_rollback_on_llm_failure (hub : McpHub) (tr : Transport)
    (parse : JsonParse) (llm : LLM) (opts : ChatEngine.ChatOptions)
    (msgs0 : List Message) (input : String)
    (msgs : List Message) (e : String) (calls : Nat)
    (herr : ChatEngine.chat hub tr parse llm opts msgs0 input = .err msgs e calls) :
    ∃ rest, msgs = msgs0 ++ ChatEngine.userMessage input :: rest
      ∧ rest.length + 1 = calls
      ∧ ∀ m ∈ rest, m.role = "assistant" := by
  obtain ⟨rest, h1, h2, h3⟩ := ChatEngine.chatLoop_err_extends hub tr parse llm
    (opts.autoExecuteTools.getD true) (opts.maxTurns.getD 10)
    (msgs0 ++ [ChatEngine.userMessage input]) "" 0 msgs e calls herr
  refine ⟨rest, ?_, by omega, h3⟩
  rw [h1, List.append_assoc]
  rfl

/-- C10 witness: an LLM that rejects on the first invocation leaves exactly
the freshly appended user Turn in the transcript. -/
theorem C10_no_rollback_witness :
    ∃ rest, ([ChatEngine.userMessage "q"] : List Message)
        = [] ++ ChatEngine.userMessage "q" :: rest
      ∧ rest.length + 1 = 1
      ∧ ∀ m ∈ rest, m.role = "assistant" :=
  C10_no_rollback_on_llm_failure hubA trOkHi parseId llmErr
    { maxTurns := some 1, autoExecuteTools := none } [] "q"
    [ChatEngine.userMessage "q"] "boom" 1 rfl

namespace BatchProcessor

theorem processQuestion_handed (chatF : ChatFun) (st : List Message)
    (q : BatchQuestion) (i : Nat) :
    (processQuestion chatF st q i).2.2 = injectCtx st q := by
  unfold processQuestion
  cases h : chatF (injectCtx st q) q.question <;> simp [h]

theorem resultsSpec_length (chatF : ChatFun) :
    ∀ (qs : List BatchQuestion) (st : List Message) (i : Nat),
      (resultsSpec chatF st qs i).length = qs.length := by
  intro qs
  induction qs with
  | nil => intro st i; rfl
  | cons q rest ih =>
    intro st i
    simp [resultsSpec, ih]

theorem runSeq_continue (chatF : ChatFun) :
    ∀ (qs : List BatchQuestion) (i : Nat) (st : List Message),
      runSeq chatF true qs i st = (resultsSpec chatF st qs i, seedsSpec st qs) := by
  intro qs
  induction qs with
  | nil => intro i st; rfl
  | cons q rest ih =>
    intro i st
    simp [runSeq, ih, resultsSpec, seedsSpec, processQuestion_handed]

theorem runSeq_stop (chatF : ChatFun) :
    ∀ (qs : List BatchQuestion) (i : Nat) (st : List Message),
      (runSeq chatF false qs i st).1
        = takeThroughFailure (resultsSpec chatF st qs i) := by
  intro qs
  induction qs with
  | nil => intro i st; rfl
  | cons q rest ih =>
    intro i st
    by_cases hs : (processQuestion chatF st q i).1.success = true
    · simp [runSeq, resultsSpec, takeThroughFailure, hs, ih]
    · have hs2 : (processQuestion chatF st q i).1.success = false := by
        cases hb : (processQuestion chatF st q i).1.success
        · rfl
        · exact absurd hb hs
      simp [runSeq, resultsSpec, takeThroughFailure, hs2]

end BatchProcessor

/-- C8: with maxConcurrency = 1 the Batch Runner is strictly sequential:
with continueOnError = true every record yields exactly one result, in input
order, each produced independently from a cleared transcript (the first
record from the batch-start transcript), any record context injected as a
system Turn before its question; with continueOnError = false exactly the
records up to and including the first failing one appear. -/
theorem C8_sequential_batch (chatF : BatchProcessor.ChatFun)
    (qs : List BatchQuestion) (st : List Message) :
    (BatchProcessor.processFromFile chatF true qs st).1.length = qs.length
    ∧ (BatchProcessor.processFromFile chatF true qs st).1
        = BatchProcessor.resultsSpec chatF st qs 1
    ∧ (BatchProcessor.processFromFile chatF true qs st).2
        = BatchProcessor.seedsSpec st qs
    ∧ (BatchProcessor.processFromFile chatF false qs st).1
        = BatchProcessor.takeThroughFailure (BatchProcessor.resultsSpec chatF st qs 1) := by
  have h1 := BatchProcessor.runSeq_continue chatF qs 1 st
  have h2 := BatchProcessor.runSeq_stop chatF qs 1 st
  refine ⟨?_, ?_, ?_, ?_⟩
  · show (BatchProcessor.runSeq chatF true qs 1 st).1.length = qs.length
    rw [h1]
    exact BatchProcessor.resultsSpec_length chatF qs st 1
  · show (BatchProcessor.runSeq chatF true qs 1 st).1 = _
    rw [h1]
  · show (BatchProcessor.runSeq chatF true qs 1 st).2 = _
    rw [h1]
  · exact h2

end McpLite
